import Mathlib

/-!
Shallow embedding of the code-index engine (file indexer, dedup gate,
distributed file lock, commit driver, structural parser dispatch) with
theorems settling the specification claims.

Source files embedded:
  src/core/indexer.py        (FileIndexer)
  src/core/locks.py          (FileLock acquire transaction)
  src/core/commit_parser.py  (CommitParser incremental driver)
  src/core/parser/main.py    (CodeParser language detection / dispatch)
  src/core/parser/typescript/main.py (TypeScriptParser tier-1 extraction)
  src/models/file_index.py   (FileIndex pydantic model and validators)

External effects (git subprocess, sha256, Firestore reads/writes, the
Python datetime parser, and the tree-sitter grammar) are parameters of an
`Env` record; store state is threaded explicitly through a `Store` record.
-/

namespace CodeIndex

/-! ## Path helpers: Python pathlib behaviour used by the source -/

/-- Split a character list at every occurrence of `sep` (the splitting
underlying `str.split('/')`). -/
def splitOnChar (sep : Char) : List Char → List (List Char)
  | [] => [[]]
  | ch :: rest =>
      let r := splitOnChar sep rest
      if ch = sep then [] :: r
      else
        match r with
        | [] => [[ch]]
        | h :: t => (ch :: h) :: t

/-- Components of a relative posix path, as `pathlib.PurePosixPath(p).parts`
for the repository-relative paths this system handles: split on `/`,
dropping empty segments and the `.` segment. -/
def pathParts (p : String) : List String :=
  ((splitOnChar '/' p.data).map String.mk).filter (fun s => s ≠ "" && s ≠ ".")

/-- `pathlib.PurePosixPath(p).name`: the final component, `""` when none. -/
def pathName (p : String) : String :=
  match (pathParts p).getLast? with
  | some n => n
  | none => ""

/-- Index (counting from `i`) of the last occurrence of `c`, `none` when
absent. -/
def rfindFrom : List Char → Char → Nat → Option Nat
  | [], _, _ => none
  | ch :: rest, c, i =>
      match rfindFrom rest c (i + 1) with
      | some j => some j
      | none => if ch = c then some i else none

/-- Python `str.rfind`: index of the last occurrence of `c` in `s`,
`none` when absent. -/
def strRFind (s : String) (c : Char) : Option Nat :=
  rfindFrom s.data c 0

/-- `pathlib.PurePosixPath(p).suffix`: the extension of the final
component; `name[i:]` for `i = name.rfind('.')` when `0 < i < len(name)-1`,
otherwise `""`. -/
def pathSuffix (p : String) : String :=
  let name := pathName p
  match strRFind name '.' with
  | some i =>
      if 0 < i && i < name.data.length - 1 then String.mk (name.data.drop i)
      else ""
  | none => ""

/-- `str.lower()` on one character, for the ASCII alphabet the extension
sets use. -/
def lowerChar (c : Char) : Char :=
  if 'A' ≤ c && c ≤ 'Z' then Char.ofNat (c.toNat + 32) else c

/-- `str.lower()` (ASCII range, which covers every extension compared). -/
def strToLower (s : String) : String :=
  String.mk (s.data.map lowerChar)

/-- `str.endswith(suffix)`. -/
def strEndsWith (s suffix : String) : Bool :=
  s.data.drop (s.data.length - suffix.data.length) == suffix.data

/-! ## Language detection (src/core/parser/main.py `CodeParser.detect_language`) -/

/-- `TypeScriptParser.EXTENSIONS`. -/
def tsExtensions : List String := [".ts", ".tsx", ".js", ".jsx"]

/-- `PythonParser.EXTENSIONS`. -/
def pyExtensions : List String := [".py", ".pyi"]

/-- `CodeParser.detect_language`: extension-based dispatch, `"unknown"`
otherwise (further languages are commented out in the source). -/
def detect_language (filePath : String) : String :=
  let ext := strToLower (pathSuffix filePath)
  if tsExtensions.contains ext then "typescript"
  else if pyExtensions.contains ext then "python"
  else "unknown"

/-- `CommitParser._get_language_from_path`: endswith chain. -/
def getLanguageFromPath (filePath : String) : String :=
  if strEndsWith filePath ".ts" then "typescript"
  else if strEndsWith filePath ".js" then "javascript"
  else if strEndsWith filePath ".tsx" then "typescript"
  else if strEndsWith filePath ".jsx" then "javascript"
  else if strEndsWith filePath ".py" then "python"
  else if strEndsWith filePath ".go" then "go"
  else if strEndsWith filePath ".java" then "java"
  else if strEndsWith filePath ".cs" then "csharp"
  else "text"

/-! ## Data model (src/models/file_index.py) -/

/-- `ExportInfo` (name, type, visibility, lineNumber). The kind-specific
payloads (`functionSignature`, `classInfo`, `interfaceInfo`) are carried
opaquely by the orchestrator and never inspected by the operations the
claims concern, so they are elided here. -/
structure ExportInfo where
  name : String
  type : String
  visibility : String
  lineNumber : Nat
  deriving Repr, DecidableEq

/-- `ImportInfo`. -/
structure ImportInfo where
  name : String
  source : String
  lineNumber : Nat
  deriving Repr, DecidableEq

/-- `FileIndex` document model. -/
structure FileIndex where
  repoId : String
  filePath : String
  fileHash : String
  lastCommitSHA : String
  lastCommitTimestamp : String
  exports : List ExportInfo
  imports : List ImportInfo
  updatedAt : String
  language : String
  parseErrors : List String
  deriving Repr, DecidableEq

/-- `FileIndex.validate_sha_format`: pydantic rejects a `fileHash` or
`lastCommitSHA` that is empty or shorter than 7 characters; model
construction as fallible (`ValidationError` = `Except.error`). -/
def mkFileIndex (repoId filePath fileHash lastCommitSHA lastCommitTimestamp : String)
    (exports : List ExportInfo) (imports : List ImportInfo)
    (updatedAt language : String) (parseErrors : List String) :
    Except String FileIndex :=
  if fileHash = "" || fileHash.length < 7 then .error "Invalid SHA format"
  else if lastCommitSHA = "" || lastCommitSHA.length < 7 then .error "Invalid SHA format"
  else .ok ⟨repoId, filePath, fileHash, lastCommitSHA, lastCommitTimestamp,
            exports, imports, updatedAt, language, parseErrors⟩

/-- Repository metadata document, the fields the indexer touches
(src/models/repository.py `RepositoryMetadata` / the dict written by
`FileIndexer._update_repository_metadata`). -/
structure RepoMeta where
  repoId : String
  name : String
  url : String
  lastProcessedCommit : String
  lastProcessedCommitTimestamp : String
  totalFiles : Nat
  processedFiles : Nat
  lastUpdated : String
  status : String
  deriving Repr, DecidableEq

/-- Lock document written by `FileLock._acquire_in_transaction`
(src/core/locks.py). Times are modelled as integers; `expiresAt` is an
`Option` because the transaction reads it with `.get('expires_at')` and
treats a missing value as an unexpired lock. -/
structure LockDoc where
  repoId : String
  filePath : String
  lockKey : String
  acquiredAt : Int
  expiresAt : Option Int
  status : String
  deriving Repr, DecidableEq

/-- The Firestore collections this subsystem touches. `fileIndexes` is a
list in insertion order because `_index_file_with_lock` writes each record
under a fresh auto-generated document id; `repositories` and `locks` are
keyed associations. -/
structure Store where
  fileIndexes : List FileIndex
  repositories : List (String × RepoMeta)
  locks : List (String × LockDoc)
  deriving Repr, DecidableEq

def emptyStore : Store := ⟨[], [], []⟩

/-! ## Structural parser model (src/core/parser) -/

/-- Handle for a tree-sitter node found by `_find_nodes_by_type`; its
interpretation lives in the environment. -/
structure TsNode where
  id : Nat
  deriving Repr, DecidableEq

/-- `ParseResult` (src/core/parser/base.py). -/
structure ParseResult where
  exports : List ExportInfo
  imports : List ImportInfo
  language : String
  parse_errors : List String
  deriving Repr, DecidableEq

/-- Environment of external effects: git subprocess, sha256, the clock,
Firestore success/failure of the individual operations the code performs,
Python's `datetime.fromisoformat` (`none` = raises), the tree-sitter
tier-1 front end (`Except.error` = the whole-tree parse raised), the
per-node extraction functions (`Except.error` = the per-declaration
extraction raised, `.ok none` = extraction returned `None`), the regex
fallback extractors, the python-language parser, and the commit driver's
filesystem reads. -/
structure Env where
  gitHash : String → Option String
  sha256hex : String → String
  nowStr : String
  writeOk : Bool
  metaOk : Bool
  queryOk : Bool
  parseTs : String → Option Int
  tsTree : String → Except String (List TsNode × List TsNode)
  parseExportNode : TsNode → Except String (Option ExportInfo)
  parseImportNode : TsNode → Except String (Option ImportInfo)
  regexExports : String → List ExportInfo
  regexImports : String → List ImportInfo
  pyParse : String → ParseResult
  fileExists : String → Bool
  readFile : String → String

/-- `TypeScriptParser._extract_exports`: per-node extraction; an exception
for one node is caught and that node alone is skipped (`continue`), a
`None` result is skipped, nothing is appended to `parse_errors`. -/
def extractExportsTS (env : Env) (nodes : List TsNode) : List ExportInfo :=
  nodes.foldl
    (fun acc n =>
      match env.parseExportNode n with
      | .ok (some e) => acc ++ [e]
      | .ok none => acc
      | .error _ => acc) []

/-- `TypeScriptParser._extract_imports`: same per-node isolation. -/
def extractImportsTS (env : Env) (nodes : List TsNode) : List ImportInfo :=
  nodes.foldl
    (fun acc n =>
      match env.parseImportNode n with
      | .ok (some i) => acc ++ [i]
      | .ok none => acc
      | .error _ => acc) []

/-- `TypeScriptParser.parse`: tier-1 tree-sitter extraction, falling back
to the regex extractors when the tree parse (or either traversal) raises;
`parse_errors` is never written to and the function never raises. -/
def tsParse (env : Env) (content : String) : ParseResult :=
  match env.tsTree content with
  | .ok (exportNodes, importNodes) =>
      { exports := extractExportsTS env exportNodes
        imports := extractImportsTS env importNodes
        language := "typescript"
        parse_errors := [] }
  | .error _ =>
      { exports := env.regexExports content
        imports := env.regexImports content
        language := "typescript"
        parse_errors := [] }

/-- `CodeParser.parse_file`: detect the language; `"unknown"`
short-circuits with empty exports/imports and a single diagnostic;
otherwise dispatch to the language parser (the parser table holds exactly
`typescript` and `python`). -/
def parseFile (env : Env) (filePath content : String) : ParseResult :=
  let language := detect_language filePath
  if language = "unknown" then
    { exports := []
      imports := []
      language := "unknown"
      parse_errors := ["Unsupported language for file: " ++ filePath] }
  else if language = "typescript" then tsParse env content
  else env.pyParse content

/-! ## File indexer (src/core/indexer.py `FileIndexer`) -/

/-- `FileIndexer.get_file_index`: query `file_indexes` on
`repoId == repo_url and filePath == file_path`, `limit(1)`; a query
exception is caught inside and yields `None`. -/
def getFileIndex (env : Env) (st : Store) (repoUrl filePath : String) :
    Option FileIndex :=
  if env.queryOk then
    (st.fileIndexes.filter
      (fun fi => fi.repoId == repoUrl && fi.filePath == filePath)).head?
  else none

/-- `FileIndexer.should_process_file` (layer-1 content check): skip
(`false`) iff an existing record has an identical hash; any error while
checking yields `true` (process anyway). -/
def shouldProcessFile (env : Env) (st : Store) (repoUrl filePath fileHash : String) :
    Bool :=
  match getFileIndex env st repoUrl filePath with
  | some existing => !(existing.fileHash == fileHash)
  | none => true

/-- `FileIndexer.should_process_file_by_timestamp` (layer-2 check): no
record or a falsy stored timestamp processes; a `fromisoformat` failure on
either side is caught and processes; otherwise skip iff the incoming
timestamp is strictly earlier than the stored one. -/
def shouldProcessFileByTimestamp (env : Env) (st : Store)
    (repoUrl filePath fileTimestamp : String) : Bool :=
  match getFileIndex env st repoUrl filePath with
  | none => true
  | some existing =>
    if existing.lastCommitTimestamp = "" then true
    else
      match env.parseTs existing.lastCommitTimestamp with
      | none => true
      | some lastTimestamp =>
        match env.parseTs fileTimestamp with
        | none => true
        | some currentTimestamp => !(currentTimestamp < lastTimestamp)

/-- `FileIndexer._get_git_file_hash`: try `git ls-files
--format=%(objectname)`; on a missing/empty result or any exception fall
back to `sha256(content)`. Never fails. -/
def getGitFileHash (env : Env) (filePath fileContent : String) : String :=
  match env.gitHash filePath with
  | some h => if h ≠ "" then h else env.sha256hex fileContent
  | none => env.sha256hex fileContent

/-- Association-list write used for keyed documents (`doc_ref.set` /
`doc_ref.update` on a known key). -/
def setAssoc (l : List (String × RepoMeta)) (k : String) (v : RepoMeta) :
    List (String × RepoMeta) :=
  if l.any (fun p => p.1 == k) then
    l.map (fun p => if p.1 == k then (k, v) else p)
  else l ++ [(k, v)]

/-- `FileIndexer._update_repository_metadata`: bump `processedFiles` and
the last-processed-commit fields of an existing repository document, or
create a fresh one; every exception is caught internally (only logged), so
the operation is total and leaves the store unchanged on failure. -/
def updateRepositoryMetadata (env : Env) (st : Store)
    (repoUrl commitSha commitTimestamp : String) : Store :=
  if env.metaOk then
    match (st.repositories.filter (fun p => p.1 == repoUrl)).head? with
    | some (_, meta) =>
        let meta' : RepoMeta :=
          { meta with
              lastProcessedCommit := commitSha
              lastProcessedCommitTimestamp := commitTimestamp
              processedFiles := meta.processedFiles + 1
              lastUpdated := env.nowStr ++ "Z" }
        { st with repositories := setAssoc st.repositories repoUrl meta' }
    | none =>
        let meta' : RepoMeta :=
          { repoId := repoUrl, name := repoUrl, url := repoUrl
            lastProcessedCommit := commitSha
            lastProcessedCommitTimestamp := commitTimestamp
            totalFiles := 0, processedFiles := 1
            lastUpdated := env.nowStr ++ "Z", status := "processing" }
        { st with repositories := setAssoc st.repositories repoUrl meta' }
  else st

/-- `FileIndexer._index_file_with_lock`: build the `FileIndex` (pydantic
validation may raise), write it under a fresh auto-generated document id
(`self.file_indexes.document(); doc_ref.set(...)` — an append, modelled
fallible via `env.writeOk`), then update repository metadata. The
`file_lock` parameter is accepted but never used; the `locks` collection
is untouched. Errors are re-raised (`raise`). -/
def indexFileWithLock (env : Env) (st : Store)
    (repoUrl filePath commitSha fileTimestamp fileHash language : String)
    (exports : List ExportInfo) (imports : List ImportInfo) :
    Except String Store :=
  match mkFileIndex repoUrl filePath fileHash commitSha fileTimestamp
      exports imports (env.nowStr ++ "Z") language [] with
  | .error e => .error e
  | .ok fileIndex =>
    if env.writeOk then
      let st1 : Store := { st with fileIndexes := st.fileIndexes ++ [fileIndex] }
      .ok (updateRepositoryMetadata env st1 repoUrl commitSha fileTimestamp)
    else .error "firestore set failed"

/-- The exports/imports actually used by `process_file`: when either
argument is missing, the file is parsed and the parser's results replace
both (the `if parse_result:` branch — `ParseResult` instances are always
truthy); otherwise the supplied lists are used. -/
def chosenExportsImports (env : Env) (filePath fileContent : String)
    (exports? : Option (List ExportInfo)) (imports? : Option (List ImportInfo)) :
    List ExportInfo × List ImportInfo :=
  if exports?.isNone || imports?.isNone then
    let parseResult := parseFile env filePath fileContent
    (parseResult.exports, parseResult.imports)
  else (exports?.getD [], imports?.getD [])

/-- The body of `FileIndexer.process_file`'s `try` block, exactly as the
source executes it: both deduplication gates are commented out
("temporarily disable ... for testing"), so the hash is computed but never
checked; parsing happens when either `exports` or `imports` is not
supplied (and then overwrites both); `_index_file_with_lock` is called
with `file_lock=None`. -/
def processFileBody (env : Env) (st : Store)
    (repoUrl filePath commitSha fileTimestamp fileContent language : String)
    (exports? : Option (List ExportInfo)) (imports? : Option (List ImportInfo)) :
    Except String (Bool × Store) :=
  match indexFileWithLock env st repoUrl filePath commitSha fileTimestamp
      (getGitFileHash env filePath fileContent) language
      (chosenExportsImports env filePath fileContent exports? imports?).1
      (chosenExportsImports env filePath fileContent exports? imports?).2 with
  | .ok st' => .ok (true, st')
  | .error e => .error e

/-- `FileIndexer.process_file`: the `try` body with the blanket
`except Exception: return False` around it (the only store mutation that
can precede an escaping exception is the single atomic record write, which
leaves the store unchanged when it fails). -/
def processFile (env : Env) (st : Store)
    (repoUrl filePath commitSha fileTimestamp fileContent language : String)
    (exports? : Option (List ExportInfo)) (imports? : Option (List ImportInfo)) :
    Bool × Store :=
  match processFileBody env st repoUrl filePath commitSha fileTimestamp
      fileContent language exports? imports? with
  | .ok r => r
  | .error _ => (false, st)

/-! ## Distributed file lock (src/core/locks.py) -/

/-- Lock key format `{repoId}:{filePath}` (no commit SHA). -/
def lockKey (repoId filePath : String) : String := repoId ++ ":" ++ filePath

/-- `FileLock._acquire_in_transaction`, acting on the lock document for
this key: create when absent; overwrite the acquisition fields when
present with `expires_at < now`; otherwise refuse and leave the document
unchanged (a missing `expires_at` is treated as still valid). Returns the
acquire result and the resulting document. -/
def acquireInTransaction (now ttlSeconds : Int) (repoId filePath : String)
    (lockDoc? : Option LockDoc) : Bool × Option LockDoc :=
  let lockExpiresAt := now + ttlSeconds
  match lockDoc? with
  | none =>
      (true, some { repoId := repoId, filePath := filePath
                    lockKey := lockKey repoId filePath
                    acquiredAt := now, expiresAt := some lockExpiresAt
                    status := "acquired" })
  | some d =>
      match d.expiresAt with
      | some e =>
          if e < now then
            (true, some { d with acquiredAt := now
                                 expiresAt := some lockExpiresAt
                                 status := "acquired" })
          else (false, some d)
      | none => (false, some d)

/-! ## Commit driver (src/core/commit_parser.py `CommitParser`) -/

/-- `CommitParser._is_file_in_allowed_folder`: root files (exactly one
path component) or a first component among the allowed folders. Indexing
`path_parts[0]` on an empty tuple raises (`none`), which the caller's
per-file `except` turns into a failure count. -/
def allowedFolders : List String := ["src", "app", "packages"]

/-- See `allowedFolders`. -/
def isFileInAllowedFolder (filePath : String) : Option Bool :=
  let parts := pathParts filePath
  if parts.length == 1 then some true
  else
    match parts.head? with
    | some p0 => some (allowedFolders.contains p0)
    | none => none

/-- Running totals of `CommitParser._process_changed_files`, plus an audit
list of the paths actually handed to `FileIndexer.process_file` (and hence
to the structural parser). -/
structure RunTotals where
  processed : Nat
  failed : Nat
  skipped : Nat
  delegatedFiles : List String
  deriving Repr, DecidableEq

/-- One iteration of the `for file_path in changed_files` loop of
`CommitParser._process_changed_files`. -/
def processOneChangedFile (env : Env) (repoUrl commitSha commitTimestamp : String)
    (deletedFiles : List String) (acc : RunTotals × Store) (filePath : String) :
    RunTotals × Store :=
  let (tot, st) := acc
  match isFileInAllowedFolder filePath with
  | none => ({ tot with failed := tot.failed + 1 }, st)
  | some false => ({ tot with skipped := tot.skipped + 1 }, st)
  | some true =>
    if deletedFiles.contains filePath then
      ({ tot with skipped := tot.skipped + 1 }, st)
    else if env.fileExists filePath = false then
      ({ tot with failed := tot.failed + 1 }, st)
    else
      let fileContent := env.readFile filePath
      let language := getLanguageFromPath filePath
      let (ok, st') := processFile env st repoUrl filePath commitSha
          commitTimestamp fileContent language none none
      if ok then
        ({ tot with processed := tot.processed + 1
                    delegatedFiles := tot.delegatedFiles ++ [filePath] }, st')
      else
        ({ tot with failed := tot.failed + 1
                    delegatedFiles := tot.delegatedFiles ++ [filePath] }, st')

/-- `CommitParser._process_changed_files`: fold the loop body over the
changed-file list. -/
def processChangedFiles (env : Env) (repoUrl : String)
    (changedFiles deletedFiles : List String)
    (commitSha commitTimestamp : String) (st : Store) : RunTotals × Store :=
  changedFiles.foldl
    (processOneChangedFile env repoUrl commitSha commitTimestamp deletedFiles)
    (⟨0, 0, 0, []⟩, st)

/-! ## Concrete environments and stores used by the closed theorems -/

/-- Decimal digit value of a character, `none` otherwise. -/
def decDigit? (c : Char) : Option Nat :=
  if c = '0' then some 0 else if c = '1' then some 1
  else if c = '2' then some 2 else if c = '3' then some 3
  else if c = '4' then some 4 else if c = '5' then some 5
  else if c = '6' then some 6 else if c = '7' then some 7
  else if c = '8' then some 8 else if c = '9' then some 9 else none

/-- Left-to-right decimal accumulation. -/
def natOfDigitsAux : List Char → Nat → Option Nat
  | [], acc => some acc
  | c :: rest, acc =>
      match decDigit? c with
      | some d => natOfDigitsAux rest (acc * 10 + d)
      | none => none

/-- Parse a nonempty all-digit string as a natural-valued instant (the
concrete stand-in for `datetime.fromisoformat` in the witness
environments; a non-numeric string fails, as `fromisoformat` raises). -/
def strToInstant? (s : String) : Option Int :=
  match s.data with
  | [] => none
  | l => (natOfDigitsAux l 0).map Int.ofNat

/-- A concrete benign environment: git hash unavailable (content-hash
fallback), all Firestore operations succeed, timestamps parse as decimal
integers, the tree-sitter front end yields no declarations, files exist
and read as empty. -/
def env0 : Env :=
  { gitHash := fun _ => none
    sha256hex := fun s => "sha256:" ++ s
    nowStr := "2024-01-01T00:00:00"
    writeOk := true
    metaOk := true
    queryOk := true
    parseTs := strToInstant?
    tsTree := fun _ => .ok ([], [])
    parseExportNode := fun _ => .ok none
    parseImportNode := fun _ => .ok none
    regexExports := fun _ => []
    regexImports := fun _ => []
    pyParse := fun _ => ⟨[], [], "python", []⟩
    fileExists := fun _ => true
    readFile := fun _ => "" }

/-- `env0` with the Firestore record write raising. -/
def envWriteFail : Env := { env0 with writeOk := false }

/-- One `process_file` call with fixed identical arguments, for the
idempotence experiment. -/
def c1Call (st : Store) : Bool × Store :=
  processFile env0 st "repo1" "src/a.ts" "cafebabe1" "100" "content1" "typescript"
    none none

/-- Store after first processing of `src/b.ts` (content `v1`). -/
def c3First : Store :=
  (processFile env0 emptyStore "repo3" "src/b.ts" "deadbeef1" "100" "v1"
    "typescript" none none).2

/-- Store after reprocessing `src/b.ts` at a later commit (content `v2`). -/
def c3Second : Store :=
  (processFile env0 c3First "repo3" "src/b.ts" "deadbeef2" "200" "v2"
    "typescript" none none).2

/-- A stored record with `lastCommitTimestamp = "9"`. -/
def fiTimestamped : FileIndex :=
  ⟨"repo6", "src/w.ts", "sha256:v", "cafebabe1", "9", [], [], "t", "typescript", []⟩

/-- Store holding exactly `fiTimestamped`. -/
def stTimestamped : Store := ⟨[fiTimestamped], [], []⟩

/-- Node handle standing for a well-formed export declaration. -/
def tsNodeGood : TsNode := ⟨1⟩

/-- Node handle standing for a malformed export declaration whose
extraction raises. -/
def tsNodeBad : TsNode := ⟨2⟩

/-- The export extracted from the well-formed declaration. -/
def goodExport : ExportInfo := ⟨"add", "function", "public", 1⟩

/-- Environment whose tree-sitter front end finds one well-formed and one
malformed export declaration: extracting the second raises. -/
def env5 : Env :=
  { env0 with
      tsTree := fun _ => .ok ([tsNodeGood, tsNodeBad], [])
      parseExportNode := fun n =>
        if n = tsNodeGood then .ok (some goodExport)
        else .error "malformed declaration" }

/-- A source text with one well-formed and one malformed declaration
(interpreted by `env5`). -/
def c5content : String :=
  "export function add(a, b) return a + b\nexport function"

/-- `env0` with the `file_indexes` query raising. -/
def envQueryFail : Env := { env0 with queryOk := false }

/-- `env0` with the repository-metadata update raising (swallowed inside
`_update_repository_metadata`). -/
def envMetaFail : Env := { env0 with metaOk := false }

/-! ## Helper lemmas -/

theorem mkFileIndex_ok_fields
    {repoId filePath fileHash lastCommitSHA lastCommitTimestamp : String}
    {exports : List ExportInfo} {imports : List ImportInfo}
    {updatedAt language : String} {parseErrors : List String} {fi : FileIndex}
    (h : mkFileIndex repoId filePath fileHash lastCommitSHA lastCommitTimestamp
        exports imports updatedAt language parseErrors = .ok fi) :
    fi.parseErrors = parseErrors ∧ fi.repoId = repoId ∧ fi.filePath = filePath := by
  unfold mkFileIndex at h
  split at h
  · exact Except.noConfusion h
  · split at h
    · exact Except.noConfusion h
    · injection h with h
      subst h
      exact ⟨rfl, rfl, rfl⟩

theorem updateRepositoryMetadata_fileIndexes (env : Env) (st : Store)
    (repoUrl commitSha commitTimestamp : String) :
    (updateRepositoryMetadata env st repoUrl commitSha commitTimestamp).fileIndexes
      = st.fileIndexes := by
  unfold updateRepositoryMetadata
  split
  · split <;> rfl
  · rfl

theorem updateRepositoryMetadata_locks (env : Env) (st : Store)
    (repoUrl commitSha commitTimestamp : String) :
    (updateRepositoryMetadata env st repoUrl commitSha commitTimestamp).locks
      = st.locks := by
  unfold updateRepositoryMetadata
  split
  · split <;> rfl
  · rfl

theorem indexFileWithLock_ok
    {env : Env} {st : Store}
    {repoUrl filePath commitSha fileTimestamp fileHash language : String}
    {exports : List ExportInfo} {imports : List ImportInfo} {st' : Store}
    (h : indexFileWithLock env st repoUrl filePath commitSha fileTimestamp
        fileHash language exports imports = .ok st') :
    ∃ fi : FileIndex, fi.parseErrors = [] ∧
      st'.fileIndexes = st.fileIndexes ++ [fi] ∧ st'.locks = st.locks := by
  unfold indexFileWithLock at h
  cases hm : mkFileIndex repoUrl filePath fileHash commitSha fileTimestamp
      exports imports (env.nowStr ++ "Z") language [] with
  | error e => rw [hm] at h; exact Except.noConfusion h
  | ok fi =>
    simp only [hm] at h
    split at h
    · injection h with h
      subst h
      refine ⟨fi, (mkFileIndex_ok_fields hm).1, ?_, ?_⟩
      · rw [updateRepositoryMetadata_fileIndexes]
      · rw [updateRepositoryMetadata_locks]
    · exact Except.noConfusion h

theorem processFileBody_ok
    {env : Env} {st : Store}
    {repoUrl filePath commitSha fileTimestamp fileContent language : String}
    {exports? : Option (List ExportInfo)} {imports? : Option (List ImportInfo)}
    {r : Bool × Store}
    (h : processFileBody env st repoUrl filePath commitSha fileTimestamp
        fileContent language exports? imports? = .ok r) :
    r.1 = true ∧ ∃ fi : FileIndex, fi.parseErrors = [] ∧
      r.2.fileIndexes = st.fileIndexes ++ [fi] ∧ r.2.locks = st.locks := by
  unfold processFileBody at h
  split at h
  · rename_i st' heq
    injection h with h
    subst h
    obtain ⟨fi, hfi, hfx, hlk⟩ := indexFileWithLock_ok heq
    exact ⟨rfl, fi, hfi, hfx, hlk⟩
  · exact Except.noConfusion h

/-! ## Claim theorems -/

/-- Claim C4: one `acquire()` transaction creates the lock document and
returns `true` when none exists; overwrites the acquisition fields and
returns `true` when the existing document's `expires_at` is in the past;
and returns `false` leaving the document unchanged when the existing
document is unexpired. -/
theorem lock_acquire_transaction_cases (now ttlSeconds : Int) (repoId filePath : String) :
    (acquireInTransaction now ttlSeconds repoId filePath none =
      (true, some ⟨repoId, filePath, lockKey repoId filePath, now,
        some (now + ttlSeconds), "acquired"⟩))
    ∧ (∀ (d : LockDoc) (e : Int), d.expiresAt = some e → e < now →
        acquireInTransaction now ttlSeconds repoId filePath (some d) =
          (true, some { d with acquiredAt := now
                               expiresAt := some (now + ttlSeconds)
                               status := "acquired" }))
    ∧ (∀ (d : LockDoc) (e : Int), d.expiresAt = some e → ¬e < now →
        acquireInTransaction now ttlSeconds repoId filePath (some d) =
          (false, some d)) := by
  refine ⟨rfl, ?_, ?_⟩
  · intro d e he hlt
    simp [acquireInTransaction, he, hlt]
  · intro d e he hlt
    simp [acquireInTransaction, he, hlt]

/-- Witness for C4: at time 10 with TTL 300, a lock that expired at 5 is
reclaimed, a lock valid until 20 is refused and left unchanged. -/
theorem lock_acquire_transaction_cases_witness :
    acquireInTransaction 10 300 "r" "f"
        (some ⟨"r", "f", "r:f", 0, some 5, "acquired"⟩) =
      (true, some ⟨"r", "f", "r:f", 10, some 310, "acquired"⟩)
    ∧ acquireInTransaction 10 300 "r" "f"
        (some ⟨"r", "f", "r:f", 0, some 20, "acquired"⟩) =
      (false, some ⟨"r", "f", "r:f", 0, some 20, "acquired"⟩) := by
  constructor
  · exact (lock_acquire_transaction_cases 10 300 "r" "f").2.1
      ⟨"r", "f", "r:f", 0, some 5, "acquired"⟩ 5 rfl (by decide)
  · exact (lock_acquire_transaction_cases 10 300 "r" "f").2.2
      ⟨"r", "f", "r:f", 0, some 20, "acquired"⟩ 20 rfl (by decide)

/-- Claim C9: language detection depends only on the path's extension,
and an `"unknown"` detection short-circuits `parse_file`: empty exports
and imports, exactly one diagnostic string, and no language parser is
consulted (the result is the same under every environment). -/
theorem language_detection_and_unknown_shortcircuit :
    (∀ p q : String, pathSuffix p = pathSuffix q →
      detect_language p = detect_language q)
    ∧ (∀ (env : Env) (p c : String), detect_language p = "unknown" →
        parseFile env p c =
          { exports := [], imports := [], language := "unknown",
            parse_errors := ["Unsupported language for file: " ++ p] })
    ∧ (∀ (env env' : Env) (p c c' : String), detect_language p = "unknown" →
        parseFile env p c = parseFile env' p c')
    ∧ (∀ (env : Env) (p c : String), detect_language p = "unknown" →
        (parseFile env p c).exports = [] ∧ (parseFile env p c).imports = []
        ∧ (parseFile env p c).parse_errors.length = 1) := by
  have hshort : ∀ (env : Env) (p c : String), detect_language p = "unknown" →
      parseFile env p c =
        { exports := [], imports := [], language := "unknown",
          parse_errors := ["Unsupported language for file: " ++ p] } := by
    intro env p c h
    unfold parseFile
    simp [h]
  refine ⟨?_, hshort, ?_, ?_⟩
  · intro p q h
    unfold detect_language
    rw [h]
  · intro env env' p c c' h
    rw [hshort env p c h, hshort env' p c' h]
  · intro env p c h
    rw [hshort env p c h]
    exact ⟨rfl, rfl, rfl⟩

/-- Witness for C9: a `.txt` file is detected `"unknown"` and `parse_file`
short-circuits with the single diagnostic. -/
theorem language_detection_and_unknown_shortcircuit_witness :
    detect_language "notes.txt" = "unknown"
    ∧ parseFile env0 "notes.txt" "some text" =
        { exports := [], imports := [], language := "unknown",
          parse_errors := ["Unsupported language for file: notes.txt"] } :=
  ⟨rfl, language_detection_and_unknown_shortcircuit.2.1 env0 "notes.txt" "some text" rfl⟩

/-- Claim C10: every `FileIndexRecord` the orchestrator persists (each
record appended to `file_indexes` by a `process_file` call) has an empty
`parseErrors` list, whatever the parser reported. -/
theorem persisted_records_have_empty_parse_errors :
    ∀ (env : Env) (st : Store)
      (repoUrl filePath commitSha fileTimestamp fileContent language : String)
      (exports? : Option (List ExportInfo)) (imports? : Option (List ImportInfo)),
      (((processFile env st repoUrl filePath commitSha fileTimestamp fileContent
          language exports? imports?).2.fileIndexes).drop
        st.fileIndexes.length).all (fun fi => fi.parseErrors.isEmpty) = true := by
  intro env st repoUrl filePath commitSha fileTimestamp fileContent language e? i?
  unfold processFile
  cases hb : processFileBody env st repoUrl filePath commitSha fileTimestamp
      fileContent language e? i? with
  | ok r =>
    obtain ⟨-, fi, hfi, hfx, -⟩ := processFileBody_ok hb
    rw [hfx, List.drop_left]
    simp [hfi]
  | error e =>
    simp [List.drop_length]

/-- Claim C6: the timestamp check skips iff the record the gate finds has
a (parseable, non-falsy) stored timestamp strictly later than the incoming
one; an equal timestamp and a missing record are processed; and an
internal error while evaluating either dedup check — a timestamp-parse
failure or a store-query failure — results in "process anyway". -/
theorem timestamp_gate_spec :
    (∀ (env : Env) (st : Store) (repoUrl filePath ts : String)
        (ex : FileIndex) (lastT curT : Int),
        getFileIndex env st repoUrl filePath = some ex →
        ex.lastCommitTimestamp ≠ "" →
        env.parseTs ex.lastCommitTimestamp = some lastT →
        env.parseTs ts = some curT →
        (shouldProcessFileByTimestamp env st repoUrl filePath ts = false ↔
          curT < lastT))
    ∧ (∀ (env : Env) (st : Store) (repoUrl filePath ts : String),
        getFileIndex env st repoUrl filePath = none →
        shouldProcessFileByTimestamp env st repoUrl filePath ts = true)
    ∧ (∀ (env : Env) (st : Store) (repoUrl filePath ts : String)
        (ex : FileIndex),
        getFileIndex env st repoUrl filePath = some ex →
        (env.parseTs ex.lastCommitTimestamp = none ∨ env.parseTs ts = none) →
        shouldProcessFileByTimestamp env st repoUrl filePath ts = true)
    ∧ (∀ (env : Env) (st : Store) (repoUrl filePath fileHash ts : String),
        env.queryOk = false →
        shouldProcessFile env st repoUrl filePath fileHash = true ∧
        shouldProcessFileByTimestamp env st repoUrl filePath ts = true) := by
  refine ⟨?_, ?_, ?_, ?_⟩
  · intro env st repoUrl filePath ts ex lastT curT hget hne hlast hcur
    simp [shouldProcessFileByTimestamp, hget, hne, hlast, hcur]
  · intro env st repoUrl filePath ts hget
    simp [shouldProcessFileByTimestamp, hget]
  · intro env st repoUrl filePath ts ex hget herr
    by_cases hne : ex.lastCommitTimestamp = ""
    · simp [shouldProcessFileByTimestamp, hget, hne]
    · rcases herr with h | h
      · simp [shouldProcessFileByTimestamp, hget, hne, h]
      · cases hl : env.parseTs ex.lastCommitTimestamp with
        | none => simp [shouldProcessFileByTimestamp, hget, hne, hl]
        | some lastT => simp [shouldProcessFileByTimestamp, hget, hne, hl, h]
  · intro env st repoUrl filePath fileHash ts hq
    constructor
    · simp [shouldProcessFile, getFileIndex, hq]
    · simp [shouldProcessFileByTimestamp, getFileIndex, hq]

/-- Witness for C6: with a stored timestamp `9`, an incoming `5` is
skipped (5 < 9), an empty store processes, a malformed incoming timestamp
processes, and a failing query processes. -/
theorem timestamp_gate_spec_witness :
    (shouldProcessFileByTimestamp env0 stTimestamped "repo6" "src/w.ts" "5" = false ↔
      (5 : Int) < 9)
    ∧ shouldProcessFileByTimestamp env0 emptyStore "repo6" "src/w.ts" "5" = true
    ∧ shouldProcessFileByTimestamp env0 stTimestamped "repo6" "src/w.ts" "not-a-time" = true
    ∧ shouldProcessFileByTimestamp envQueryFail stTimestamped "repo6" "src/w.ts" "5" = true := by
  refine ⟨?_, ?_, ?_, ?_⟩
  · exact timestamp_gate_spec.1 env0 stTimestamped "repo6" "src/w.ts" "5"
      fiTimestamped 9 5 rfl (by decide) rfl rfl
  · exact timestamp_gate_spec.2.1 env0 emptyStore "repo6" "src/w.ts" "5" rfl
  · exact timestamp_gate_spec.2.2.1 env0 stTimestamped "repo6" "src/w.ts"
      "not-a-time" fiTimestamped rfl (Or.inr rfl)
  · exact (timestamp_gate_spec.2.2.2 envQueryFail stTimestamped "repo6" "src/w.ts"
      "h" "5" rfl).2

/-- Claim C7's stated behaviour is refuted at the metadata-update step:
`_update_repository_metadata` swallows its exceptions internally (log
only, no re-raise), so when that step's Firestore update raises
(`metaOk = false`: no repository metadata is written), `process_file`
still returns `true` — the internal error is not converted to a `false`
return, though the record write itself went through. -/
theorem metadata_failure_still_returns_true :
    envMetaFail.metaOk = false
    ∧ (processFile envMetaFail emptyStore "repo7m" "src/m.ts" "cafebabe2" "100"
        "x" "typescript" none none).1 = true
    ∧ (processFile envMetaFail emptyStore "repo7m" "src/m.ts" "cafebabe2" "100"
        "x" "typescript" none none).2.fileIndexes.length = 1
    ∧ (processFile envMetaFail emptyStore "repo7m" "src/m.ts" "cafebabe2" "100"
        "x" "typescript" none none).2.repositories = [] := by
  exact ⟨rfl, rfl, rfl, rfl⟩

/-- Claim C7 (amended): `process_file` never propagates an exception, and
an exception that escapes the `try` body — hashing, parsing, record
construction or the record write — is caught and converted to a `false`
return with the store unchanged (result is `false` exactly when the body
raises); an exception during the metadata update, however, is swallowed
inside `_update_repository_metadata` itself and the call still returns
`true` (with the repository metadata left unwritten). -/
theorem processFile_exception_boundary :
    (∀ (env : Env) (st : Store)
        (repoUrl filePath commitSha fileTimestamp fileContent language : String)
        (exports? : Option (List ExportInfo)) (imports? : Option (List ImportInfo)),
        ((processFile env st repoUrl filePath commitSha fileTimestamp fileContent
            language exports? imports?).1 = false ↔
          ∃ msg, processFileBody env st repoUrl filePath commitSha fileTimestamp
            fileContent language exports? imports? = .error msg)
        ∧ (∀ msg, processFileBody env st repoUrl filePath commitSha fileTimestamp
              fileContent language exports? imports? = .error msg →
            processFile env st repoUrl filePath commitSha fileTimestamp fileContent
              language exports? imports? = (false, st)))
    ∧ (∀ (env : Env) (st : Store)
        (repoUrl filePath commitSha fileTimestamp fileContent language : String)
        (exports? : Option (List ExportInfo)) (imports? : Option (List ImportInfo)),
        env.metaOk = false →
        env.writeOk = true →
        getGitFileHash env filePath fileContent ≠ "" →
        ¬(getGitFileHash env filePath fileContent).length < 7 →
        commitSha ≠ "" →
        ¬commitSha.length < 7 →
        (processFile env st repoUrl filePath commitSha fileTimestamp fileContent
          language exports? imports?).1 = true
        ∧ (processFile env st repoUrl filePath commitSha fileTimestamp fileContent
            language exports? imports?).2.repositories = st.repositories) := by
  constructor
  · intro env st repoUrl filePath commitSha fileTimestamp fileContent language e? i?
    unfold processFile
    cases hb : processFileBody env st repoUrl filePath commitSha fileTimestamp
        fileContent language e? i? with
    | ok r =>
      have h1 := (processFileBody_ok hb).1
      constructor
      · constructor
        · intro hfalse
          rw [h1] at hfalse
          exact Bool.noConfusion hfalse
        · rintro ⟨msg, hmsg⟩
          exact Except.noConfusion hmsg
      · intro msg hmsg
        exact Except.noConfusion hmsg
    | error e =>
      exact ⟨⟨fun _ => ⟨e, rfl⟩, fun _ => rfl⟩, fun msg _ => rfl⟩
  · intro env st repoUrl filePath commitSha fileTimestamp fileContent language
      e? i? hmeta hw hh1 hh2 hc1 hc2
    unfold processFile processFileBody indexFileWithLock mkFileIndex
    simp [hh1, hh2, hc1, hc2, hw, updateRepositoryMetadata, hmeta]

/-- Witness for the amended C7: a raising record write yields `false` with
the store unchanged; a raising (swallowed) metadata update still yields
`true`. -/
theorem processFile_exception_boundary_witness :
    processFile envWriteFail emptyStore "repo7" "src/a.ts" "cafebabe1" "100"
        "x" "typescript" none none = (false, emptyStore)
    ∧ (processFile envMetaFail emptyStore "repo7w" "src/a.ts" "cafebabe1" "100"
        "x" "typescript" none none).1 = true := by
  constructor
  · exact (processFile_exception_boundary.1 envWriteFail emptyStore "repo7"
      "src/a.ts" "cafebabe1" "100" "x" "typescript" none none).2
      "firestore set failed" rfl
  · exact (processFile_exception_boundary.2 envMetaFail emptyStore "repo7w"
      "src/a.ts" "cafebabe1" "100" "x" "typescript" none none rfl rfl
      (by decide) (by decide) (by decide) (by decide)).1

/-- Claim C2 (refuted, code bug): `process_file` never acquires the
distributed file lock — the `locks` collection is untouched by every call
(the source passes `file_lock=None`, "temporarily disable locking for
testing", and `_index_file_with_lock` never uses the parameter) — yet a
successful call does write a `FileIndexRecord`: records are persisted
without the lock ever being held. -/
theorem record_write_never_touches_locks :
    (∀ (env : Env) (st : Store)
        (repoUrl filePath commitSha fileTimestamp fileContent language : String)
        (exports? : Option (List ExportInfo)) (imports? : Option (List ImportInfo)),
        (processFile env st repoUrl filePath commitSha fileTimestamp fileContent
          language exports? imports?).2.locks = st.locks)
    ∧ ((processFile env0 emptyStore "repo2" "src/c.ts" "c0ffee12" "100" "x"
          "typescript" none none).1 = true
       ∧ (processFile env0 emptyStore "repo2" "src/c.ts" "c0ffee12" "100" "x"
          "typescript" none none).2.fileIndexes.length = 1
       ∧ (processFile env0 emptyStore "repo2" "src/c.ts" "c0ffee12" "100" "x"
          "typescript" none none).2.locks = []) := by
  constructor
  · intro env st repoUrl filePath commitSha fileTimestamp fileContent language e? i?
    unfold processFile
    cases hb : processFileBody env st repoUrl filePath commitSha fileTimestamp
        fileContent language e? i? with
    | ok r =>
      obtain ⟨-, -, -, -, hlk⟩ := processFileBody_ok hb
      exact hlk
    | error e => rfl
  · exact ⟨rfl, rfl, rfl⟩

/-- Claim C1 (refuted, code bug): after one `process_file` call, the
content-check function itself would skip an identical second call (same
fingerprint), but `process_file` — with both gate invocations commented
out — processes the second identical call anyway and appends a second
record instead of leaving the store unchanged. -/
theorem second_identical_call_reprocesses :
    shouldProcessFile env0 (c1Call emptyStore).2 "repo1" "src/a.ts"
        (getGitFileHash env0 "src/a.ts" "content1") = false
    ∧ (c1Call (c1Call emptyStore).2).1 = true
    ∧ (c1Call emptyStore).2.fileIndexes.length = 1
    ∧ (c1Call (c1Call emptyStore).2).2.fileIndexes.length = 2 := by
  exact ⟨rfl, rfl, rfl, rfl⟩

/-- Claim C3 (refuted, code bug): reprocessing the same `(repository,
path)` does not replace the record: each write goes to a fresh
auto-generated document, so after a second processing two current records
match the pair, with both content hashes present. -/
theorem reprocess_appends_duplicate_record :
    (c3Second.fileIndexes.filter
      (fun fi => fi.repoId == "repo3" && fi.filePath == "src/b.ts")).length = 2
    ∧ (c3Second.fileIndexes.map (fun fi => fi.fileHash)) =
        ["sha256:v1", "sha256:v2"] := by
  exact ⟨rfl, rfl⟩

/-- Claim C5's stated behaviour is refuted: with one well-formed and one
malformed export declaration (the malformed one's extraction raises), the
tier-1 parse returns exactly the well-formed export but records NO
`parse_errors` entry — the claimed diagnostic for the malformed
declaration does not exist. -/
theorem malformed_decl_yields_no_error_entry :
    env5.tsTree c5content = .ok ([tsNodeGood, tsNodeBad], [])
    ∧ env5.parseExportNode tsNodeGood = .ok (some goodExport)
    ∧ env5.parseExportNode tsNodeBad = .error "malformed declaration"
    ∧ (tsParse env5 c5content).exports = [goodExport]
    ∧ (tsParse env5 c5content).parse_errors = []
    ∧ ¬(tsParse env5 c5content).parse_errors.length = 1 := by
  exact ⟨rfl, rfl, rfl, rfl, rfl, by decide⟩

/-- Claim C5 (amended): a file with one well-formed and one malformed
declaration (in either order) yields exactly the well-formed export, the
malformed declaration is discarded silently — `parse_errors` stays empty —
and the parse is total (never raises). -/
theorem malformed_decl_discarded_silently :
    (∀ (env : Env) (content : String) (nGood nBad : TsNode) (e : ExportInfo)
        (msg : String) (importNodes : List TsNode),
        env.tsTree content = .ok ([nGood, nBad], importNodes) →
        env.parseExportNode nGood = .ok (some e) →
        env.parseExportNode nBad = .error msg →
        (tsParse env content).exports = [e]
        ∧ (tsParse env content).parse_errors = [])
    ∧ (∀ (env : Env) (content : String) (nGood nBad : TsNode) (e : ExportInfo)
        (msg : String) (importNodes : List TsNode),
        env.tsTree content = .ok ([nBad, nGood], importNodes) →
        env.parseExportNode nGood = .ok (some e) →
        env.parseExportNode nBad = .error msg →
        (tsParse env content).exports = [e]
        ∧ (tsParse env content).parse_errors = []) := by
  constructor <;>
    · intro env content nGood nBad e msg importNodes ht hg hb
      simp [tsParse, extractExportsTS, ht, hg, hb]

/-- Witness for the amended C5 at the concrete malformed input. -/
theorem malformed_decl_discarded_silently_witness :
    (tsParse env5 c5content).exports = [goodExport]
    ∧ (tsParse env5 c5content).parse_errors = [] :=
  malformed_decl_discarded_silently.1 env5 c5content tsNodeGood tsNodeBad
    goodExport "malformed declaration" [] rfl rfl rfl

theorem isFileInAllowedFolder_eq_false {p p0 : String}
    (h0 : (pathParts p).head? = some p0)
    (hc : allowedFolders.contains p0 = false)
    (h2 : 2 ≤ (pathParts p).length) :
    isFileInAllowedFolder p = some false := by
  have hne : ((pathParts p).length == 1) = false := by
    have h : (pathParts p).length ≠ 1 := by omega
    simp [h]
  simp [isFileInAllowedFolder, hne, h0]
  simpa using hc

theorem delegated_mem (env : Env) (repoUrl commitSha commitTimestamp : String)
    (deletedFiles : List String) :
    ∀ (files : List String) (acc : RunTotals × Store) (q : String),
      q ∈ (files.foldl
            (processOneChangedFile env repoUrl commitSha commitTimestamp deletedFiles)
            acc).1.delegatedFiles →
      q ∈ acc.1.delegatedFiles ∨ isFileInAllowedFolder q = some true := by
  intro files
  induction files with
  | nil => intro acc q hq; exact Or.inl hq
  | cons p rest ih =>
    intro acc q hq
    rw [List.foldl_cons] at hq
    rcases ih _ q hq with h | h
    · obtain ⟨tot, st⟩ := acc
      cases hall : isFileInAllowedFolder p with
      | none =>
        simp only [processOneChangedFile, hall] at h
        exact Or.inl h
      | some b =>
        cases b with
        | false =>
          simp only [processOneChangedFile, hall] at h
          exact Or.inl h
        | true =>
          by_cases hdel : deletedFiles.contains p = true
          · simp only [processOneChangedFile, hall, hdel, if_true] at h
            exact Or.inl h
          · rw [Bool.not_eq_true] at hdel
            by_cases hex : env.fileExists p = true
            · rcases hpf : processFile env st repoUrl p commitSha commitTimestamp
                  (env.readFile p) (getLanguageFromPath p) none none with ⟨ok, st'⟩
              simp only [processOneChangedFile, hall, hdel, hex, hpf] at h
              cases ok with
              | true =>
                simp only [if_true] at h
                rcases List.mem_append.mp h with h' | h'
                · exact Or.inl h'
                · rw [List.mem_singleton.mp h']
                  exact Or.inr hall
              | false =>
                simp only [Bool.false_eq_true, if_false] at h
                rcases List.mem_append.mp h with h' | h'
                · exact Or.inl h'
                · rw [List.mem_singleton.mp h']
                  exact Or.inr hall
            · rw [Bool.not_eq_true] at hex
              simp only [processOneChangedFile, hall, hdel, hex] at h
              exact Or.inl h
    · exact Or.inr h

/-- Claim C8: a changed path whose first component is outside the
allow-listed top-level folders and which is not at repository root is
counted skipped and never handed to `process_file` (hence never parsed),
while a root-level `index.ts` is handed over and processed. -/
theorem commit_driver_allowlist_filter :
    (∀ (env : Env) (repoUrl : String) (changedFiles deletedFiles : List String)
        (commitSha commitTimestamp : String) (st : Store) (p p0 : String),
        (pathParts p).head? = some p0 →
        allowedFolders.contains p0 = false →
        2 ≤ (pathParts p).length →
        p ∉ (processChangedFiles env repoUrl changedFiles deletedFiles commitSha
              commitTimestamp st).1.delegatedFiles)
    ∧ (∀ (env : Env) (repoUrl : String) (deletedFiles : List String)
        (commitSha commitTimestamp : String) (st : Store) (p p0 : String),
        (pathParts p).head? = some p0 →
        allowedFolders.contains p0 = false →
        2 ≤ (pathParts p).length →
        processChangedFiles env repoUrl [p] deletedFiles commitSha commitTimestamp
          st = (⟨0, 0, 1, []⟩, st))
    ∧ ((processChangedFiles env0 "repo8" ["index.ts"] [] "fee1dead" "100"
          emptyStore).1.processed = 1
       ∧ (processChangedFiles env0 "repo8" ["index.ts"] [] "fee1dead" "100"
          emptyStore).1.delegatedFiles = ["index.ts"]
       ∧ (processChangedFiles env0 "repo8" ["index.ts"] [] "fee1dead" "100"
          emptyStore).1.skipped = 0) := by
  refine ⟨?_, ?_, rfl, rfl, rfl⟩
  · intro env repoUrl changedFiles deletedFiles commitSha commitTimestamp st p p0
      h0 hc h2 hmem
    rcases delegated_mem env repoUrl commitSha commitTimestamp deletedFiles
        changedFiles _ p hmem with h | h
    · exact absurd h (List.not_mem_nil p)
    · rw [isFileInAllowedFolder_eq_false h0 hc h2] at h
      simp at h
  · intro env repoUrl deletedFiles commitSha commitTimestamp st p p0 h0 hc h2
    have hf := isFileInAllowedFolder_eq_false h0 hc h2
    simp [processChangedFiles, processOneChangedFile, hf]

/-- Witness for C8: `vendor/lib.ts` is skipped and never delegated. -/
theorem commit_driver_allowlist_filter_witness :
    processChangedFiles env0 "repo8w" ["vendor/lib.ts"] [] "c0ffee77" "100"
        emptyStore = (⟨0, 0, 1, []⟩, emptyStore)
    ∧ "vendor/lib.ts" ∉ (processChangedFiles env0 "repo8w" ["vendor/lib.ts"] []
        "c0ffee77" "100" emptyStore).1.delegatedFiles := by
  constructor
  · exact commit_driver_allowlist_filter.2.1 env0 "repo8w" [] "c0ffee77" "100"
      emptyStore "vendor/lib.ts" "vendor" rfl rfl (by decide)
  · exact commit_driver_allowlist_filter.1 env0 "repo8w" ["vendor/lib.ts"] []
      "c0ffee77" "100" emptyStore "vendor/lib.ts" "vendor" rfl rfl (by decide)

end CodeIndex
